import Mathlib

/-!
Shallow embedding of the SL shopping-list server (storage, routes, broadcast,
category classifier) and proofs of the specification claims.

Source files embedded:
- server/storage.ts : `MemStorage` (in-memory Map keyed by numeric id, `currentId` allocator)
- server/routes.ts  : `broadcastUpdate`, the REST handlers, `updateItemSchema`
- shared/schema.ts  : `insertItemSchema` (drizzle-zod `createInsertSchema` over the
  `items` table: `name` and `category` are required strings, `completed` an optional boolean)
- lib/categories.ts : `categories` keyword table and `categorizeItem`

JavaScript `Map` insertion-order semantics are modelled by an association list where
`set` on an existing key replaces the entry in place and `set` on a fresh key appends.
JSON documents are modelled by the `JsVal` inductive; `JSON.stringify` by `renderJsVal`.
-/

set_option autoImplicit false

namespace SL

/-- A JSON document, as produced by `JSON.parse` of a request body or consumed by
`JSON.stringify` for the wire. Numbers are restricted to integers, which covers every
value this server reads or writes. -/
inductive JsVal where
  | jsNull
  | jsBool (b : Bool)
  | jsNum (n : Int)
  | jsStr (s : String)
  | jsArr (elems : List JsVal)
  | jsObj (fields : List (String × JsVal))
deriving Repr

/-- JSON string escaping as in `JSON.stringify` (quote and backslash; the data this
server serializes contains no control characters). -/
def escapeChar (c : Char) : String :=
  if c = '"' then "\\\"" else if c = '\\' then "\\\\" else String.singleton c

/-- Render a JSON string literal. -/
def renderString (s : String) : String :=
  "\"" ++ String.join (s.toList.map escapeChar) ++ "\""

mutual

/-- `JSON.stringify` on the `JsVal` model. -/
def renderJsVal : JsVal → String
  | .jsNull => "null"
  | .jsBool b => cond b "true" "false"
  | .jsNum n => toString n
  | .jsStr s => renderString s
  | .jsArr elems => "[" ++ renderJsValList elems ++ "]"
  | .jsObj fields => "\x7b" ++ renderJsValFields fields ++ "\x7d"

/-- Render array elements, comma separated. -/
def renderJsValList : List JsVal → String
  | [] => ""
  | [x] => renderJsVal x
  | x :: y :: rest => renderJsVal x ++ "," ++ renderJsValList (y :: rest)

/-- Render object fields, comma separated. -/
def renderJsValFields : List (String × JsVal) → String
  | [] => ""
  | [(k, v)] => renderString k ++ ":" ++ renderJsVal v
  | (k, v) :: q :: rest => renderString k ++ ":" ++ renderJsVal v ++ "," ++ renderJsValFields (q :: rest)

end

/-- The `Item` entity of shared/schema.ts: `id`, `name`, `category`, `completed`. -/
structure Item where
  id : Int
  name : String
  category : String
  completed : Bool
deriving Repr, DecidableEq

/-- The payload accepted by `insertItemSchema`: `name` and `category` required,
`completed` optional. -/
structure InsertItem where
  name : String
  category : String
  completed : Option Bool
deriving Repr, DecidableEq

/-- The payload accepted by `updateItemSchema` (routes.ts): each field independently
optional. `none` models an absent (`undefined`) field. -/
structure UpdateItemData where
  completed : Option Bool
  category : Option String
  name : Option String
deriving Repr, DecidableEq

/-- `JSON.stringify` view of an `Item`. -/
def itemToJsVal (it : Item) : JsVal :=
  .jsObj [("id", .jsNum it.id), ("name", .jsStr it.name),
        ("category", .jsStr it.category), ("completed", .jsBool it.completed)]

/-! ## The JavaScript `Map` used by `MemStorage`, as an insertion-ordered association list -/

/-- The backing store of `MemStorage.items`: a `Map<number, Item>` in insertion order. -/
abbrev ItemMap := List (Int × Item)

/-- `Map.prototype.get`. -/
def mapGet (m : ItemMap) (k : Int) : Option Item :=
  match m with
  | [] => none
  | (k2, v) :: rest => if k2 = k then some v else mapGet rest k

/-- `Map.prototype.set`: replaces in place when the key is present (JavaScript `Map`
keeps the original insertion position), appends otherwise. -/
def mapSet (m : ItemMap) (k : Int) (v : Item) : ItemMap :=
  match m with
  | [] => [(k, v)]
  | (k2, v2) :: rest => if k2 = k then (k, v) :: rest else (k2, v2) :: mapSet rest k v

/-- `Map.prototype.delete`: removes the entry with the given key. -/
def mapDelete (m : ItemMap) (k : Int) : ItemMap :=
  match m with
  | [] => []
  | (k2, v2) :: rest => if k2 = k then rest else (k2, v2) :: mapDelete rest k

/-! ## MemStorage (server/storage.ts) -/

/-- The state of `MemStorage`: the item map and the `currentId` allocator. -/
structure MemStorage where
  items : ItemMap
  currentId : Int
deriving Repr, DecidableEq

/-- The `MemStorage` constructor: empty map, `currentId = 1`. -/
def MemStorage.init : MemStorage := { items := [], currentId := 1 }

/-- `MemStorage.getItems`: `Array.from(this.items.values())`. -/
def getItems (s : MemStorage) : List Item := s.items.map Prod.snd

/-- `MemStorage.createItem`: allocates `currentId` (post-incrementing it), builds the
item with `completed` defaulted to `false` when absent, inserts it, returns it. -/
def createItem (s : MemStorage) (ins : InsertItem) : Item × MemStorage :=
  let id := s.currentId
  let item : Item :=
    { id := id, name := ins.name, category := ins.category,
      completed := ins.completed.getD false }
  (item, { items := mapSet s.items id item, currentId := id + 1 })

/-- `MemStorage.updateItem`: throws (`none`) when the id is absent; otherwise spreads
the defined fields of `data` over the stored item (a field that is not `undefined`
overwrites, including `false` and the empty string) and stores the result. -/
def updateItem (s : MemStorage) (id : Int) (data : UpdateItemData) :
    Option (Item × MemStorage) :=
  match mapGet s.items id with
  | none => none
  | some item =>
    let updatedItem : Item :=
      { id := item.id,
        name := data.name.getD item.name,
        category := data.category.getD item.category,
        completed := data.completed.getD item.completed }
    some (updatedItem, { s with items := mapSet s.items id updatedItem })

/-- `MemStorage.deleteItem`: throws (`none`) when the id is absent, otherwise removes
the entry. -/
def deleteItem (s : MemStorage) (id : Int) : Option MemStorage :=
  match mapGet s.items id with
  | none => none
  | some _ => some { s with items := mapDelete s.items id }

/-- `MemStorage.deleteAllItems`: `this.items.clear()`; `currentId` is not reset. -/
def deleteAllItems (s : MemStorage) : MemStorage := { s with items := [] }

/-! ## Body validation (zod schemas) -/

/-- Field lookup on a parsed JSON object (`JSON.parse` never yields duplicate keys). -/
def jsonField (fields : List (String × JsVal)) (k : String) : Option JsVal :=
  match fields with
  | [] => none
  | (k2, v) :: rest => if k2 = k then some v else jsonField rest k

/-- `insertItemSchema.safeParse` (shared/schema.ts): drizzle-zod `createInsertSchema`
over the `items` table picked at `name`, `category`, `completed`. `name` and
`category` are `z.string()` — any string, the empty string included — and
`completed`, whose column has a default, is `z.boolean().optional()`. A non-object
body, a missing or non-string `name` or `category`, or a present non-boolean
`completed` fails; unknown fields are stripped. -/
def safeParseInsert (body : JsVal) : Option InsertItem :=
  match body with
  | .jsObj fields =>
    match jsonField fields "name", jsonField fields "category" with
    | some (.jsStr n), some (.jsStr c) =>
      match jsonField fields "completed" with
      | none => some { name := n, category := c, completed := none }
      | some (.jsBool b) => some { name := n, category := c, completed := some b }
      | some _ => none
    | _, _ => none
  | _ => none

/-- Parse one optional `z.string()` field: absent is fine, present must be a string. -/
def optStrField (fields : List (String × JsVal)) (k : String) : Option (Option String) :=
  match jsonField fields k with
  | none => some none
  | some (.jsStr s) => some (some s)
  | some _ => none

/-- Parse one optional `z.boolean()` field. -/
def optBoolField (fields : List (String × JsVal)) (k : String) : Option (Option Bool) :=
  match jsonField fields k with
  | none => some none
  | some (.jsBool b) => some (some b)
  | some _ => none

/-- `updateItemSchema.safeParse` (routes.ts): `completed`, `category`, `name` each
independently optional and independently typed; unknown fields are stripped. -/
def safeParseUpdate (body : JsVal) : Option UpdateItemData :=
  match body with
  | .jsObj fields => do
    let c ← optBoolField fields "completed"
    let cat ← optStrField fields "category"
    let n ← optStrField fields "name"
    some { completed := c, category := cat, name := n }
  | _ => none

/-! ## JavaScript `parseInt` (the id-segment parser of the PATCH and DELETE routes) -/

/-- Whitespace stripped by `parseInt` (space, tab, and the line terminators and
form/vertical feeds; the exotic Unicode spaces cannot occur in a decoded path
segment of this API). -/
def isJsWhitespace (c : Char) : Bool :=
  [' ', '\t', '\n', '\r', '\x0b', '\x0c'].contains c

/-- Decimal digit value. -/
def digitVal (c : Char) : Option Nat :=
  if c.isDigit then some (c.toNat - 48) else none

/-- Hexadecimal digit value. -/
def hexVal (c : Char) : Option Nat :=
  if c.isDigit then some (c.toNat - 48)
  else if 'a' ≤ c ∧ c ≤ 'f' then some (c.toNat - 87)
  else if 'A' ≤ c ∧ c ≤ 'F' then some (c.toNat - 55)
  else none

/-- Longest digit prefix, `none` when there is no leading digit (`parseInt` NaN). -/
def parseDigits (f : Char → Option Nat) (radix : Nat) : List Char → Option Nat → Option Nat
  | [], acc => acc
  | c :: cs, acc =>
    match f c with
    | some d => parseDigits f radix cs (some ((acc.getD 0) * radix + d))
    | none => acc

/-- JavaScript `parseInt(s)` with no radix argument: skip leading whitespace, optional
sign, optional `0x`/`0X` hexadecimal prefix, then the longest digit prefix; `none`
models NaN. Note that it accepts a leading minus sign — a negative id segment parses
successfully. -/
def parseIntJS (s : String) : Option Int :=
  let cs := s.toList.dropWhile isJsWhitespace
  let (sign, cs2) : Int × List Char :=
    match cs with
    | '-' :: rest => (-1, rest)
    | '+' :: rest => (1, rest)
    | _ => (1, cs)
  let (f, radix, cs3) : (Char → Option Nat) × Nat × List Char :=
    match cs2 with
    | '0' :: 'x' :: rest => (hexVal, 16, rest)
    | '0' :: 'X' :: rest => (hexVal, 16, rest)
    | _ => (digitVal, 10, cs2)
  match parseDigits f radix cs3 none with
  | none => none
  | some n => some (sign * (n : Int))

/-! ## Broadcast channel (routes.ts: `clients` set and `broadcastUpdate`) -/

/-- WebSocket `readyState` values. -/
inductive ReadyState where
  | CONNECTING
  | OPEN
  | CLOSING
  | CLOSED
deriving Repr, DecidableEq

/-- A tracked WebSocket connection. `label` identifies the connection, `readyState`
is its current state, and `sendFails` models whether `client.send` would throw for
it during this broadcast. -/
structure Client where
  label : Nat
  readyState : ReadyState
  sendFails : Bool
deriving Repr, DecidableEq

/-- The server-side mutable state the routes touch: the storage and the tracked
client set (in insertion order, as `Array.from` of a JavaScript `Set` yields). -/
structure ServerState where
  storage : MemStorage
  clients : List Client
deriving Repr, DecidableEq

/-- One pass of `broadcastUpdate`'s `forEach` over the client snapshot: an `OPEN`
client is sent the message inside a try/catch — when the send throws, the error is
swallowed and the client is removed from the set; a client in any other state is
skipped and kept. Returns the surviving client set and the (label, message) sends. -/
def broadcastLoop (message : String) : List Client → List Client × List (Nat × String)
  | [] => ([], [])
  | c :: rest =>
    let r := broadcastLoop message rest
    if c.readyState = .OPEN then
      if c.sendFails then (r.1, r.2)
      else (c :: r.1, (c.label, message) :: r.2)
    else (c :: r.1, r.2)

/-- The `type: UPDATE` message built by `broadcastUpdate` before serialization. -/
def updateMessage (items : List Item) : JsVal :=
  .jsObj [("type", .jsStr "UPDATE"), ("items", .jsArr (items.map itemToJsVal))]

/-- `broadcastUpdate` (routes.ts): read the store's item list once, serialize it into
one message, and push that same string to every tracked `OPEN` connection; per-client
send failures are caught locally. Returns the new state and the list of sends. -/
def broadcastUpdate (st : ServerState) : ServerState × List (Nat × String) :=
  let message := renderJsVal (updateMessage (getItems st.storage))
  let r := broadcastLoop message st.clients
  ({ st with clients := r.1 }, r.2)

/-! ## REST handlers (routes.ts) -/

/-- The responses the handlers produce. -/
inductive HttpResponse where
  | ok (body : JsVal)
  | badRequest (message : String)
  | notFound (message : String)
  | noContent
  | internalError (message : String)
deriving Repr

/-- The observable outcome of one handled request: the HTTP response, the server
state afterwards, how many times `broadcastUpdate` ran, and the sends it performed. -/
structure HandlerOut where
  resp : HttpResponse
  state : ServerState
  broadcasts : Nat
  sends : List (Nat × String)

/-- `GET /api/items`. -/
def getItemsRoute (st : ServerState) : HandlerOut :=
  { resp := .ok (.jsArr ((getItems st.storage).map itemToJsVal)),
    state := st, broadcasts := 0, sends := [] }

/-- `POST /api/items`: validate with `insertItemSchema`, then create, broadcast,
and answer with the created item. -/
def postItemsRoute (body : JsVal) (st : ServerState) : HandlerOut :=
  match safeParseInsert body with
  | none => { resp := .badRequest "Invalid item data", state := st, broadcasts := 0, sends := [] }
  | some ins =>
    let r := createItem st.storage ins
    let bu := broadcastUpdate { st with storage := r.2 }
    { resp := .ok (itemToJsVal r.1), state := bu.1, broadcasts := 1, sends := bu.2 }

/-- `PATCH /api/items/:id`: `parseInt` the id segment (400 on NaN), validate the body
with `updateItemSchema` (400 on failure), update (404 when the store throws not
found), then broadcast and answer with the updated item. -/
def patchItemRoute (idSeg : String) (body : JsVal) (st : ServerState) : HandlerOut :=
  match parseIntJS idSeg with
  | none => { resp := .badRequest "Invalid ID", state := st, broadcasts := 0, sends := [] }
  | some id =>
    match safeParseUpdate body with
    | none => { resp := .badRequest "Invalid update data", state := st, broadcasts := 0, sends := [] }
    | some data =>
      match updateItem st.storage id data with
      | none => { resp := .notFound "Item not found", state := st, broadcasts := 0, sends := [] }
      | some r =>
        let bu := broadcastUpdate { st with storage := r.2 }
        { resp := .ok (itemToJsVal r.1), state := bu.1, broadcasts := 1, sends := bu.2 }

/-- `DELETE /api/items/:id`: `parseInt` the id segment (400 on NaN), delete (404 when
the store throws not found), then broadcast and answer 204. -/
def deleteItemRoute (idSeg : String) (st : ServerState) : HandlerOut :=
  match parseIntJS idSeg with
  | none => { resp := .badRequest "Invalid ID", state := st, broadcasts := 0, sends := [] }
  | some id =>
    match deleteItem st.storage id with
    | none => { resp := .notFound "Item not found", state := st, broadcasts := 0, sends := [] }
    | some s2 =>
      let bu := broadcastUpdate { st with storage := s2 }
      { resp := .noContent, state := bu.1, broadcasts := 1, sends := bu.2 }

/-- `DELETE /api/items`: clear the store, broadcast, answer 204. -/
def deleteAllRoute (st : ServerState) : HandlerOut :=
  let bu := broadcastUpdate { st with storage := deleteAllItems st.storage }
  { resp := .noContent, state := bu.1, broadcasts := 1, sends := bu.2 }

/-- Did the handler answer successfully (200 with a JSON body, or 204)? -/
def isSuccess (r : HttpResponse) : Bool :=
  match r with
  | .ok _ => true
  | .noContent => true
  | _ => false

/-- Did the handler answer 400? -/
def isBadRequest (r : HttpResponse) : Bool :=
  match r with
  | .badRequest _ => true
  | _ => false

/-- A create body that `insertItemSchema` rejects for the reasons the spec lists:
it is not an object, or `name` or `category` is missing or not a string. -/
def insertBodyLacksText (body : JsVal) : Bool :=
  match body with
  | .jsObj fields =>
    (match jsonField fields "name" with
     | some (.jsStr _) => false
     | _ => true) ||
    (match jsonField fields "category" with
     | some (.jsStr _) => false
     | _ => true)
  | _ => true

/-! ## Store-level operation sequences (for lifetime invariants) -/

/-- One store mutation, as invoked by the routes within a process lifetime. -/
inductive StoreOp where
  | create (ins : InsertItem)
  | update (id : Int) (data : UpdateItemData)
  | deleteOne (id : Int)
  | deleteAll
deriving Repr, DecidableEq

/-- Apply one operation to the store; a `NotFound` throw leaves the store as it was
(the route catches the error without touching the storage). -/
def applyOp (s : MemStorage) : StoreOp → MemStorage
  | .create ins => (createItem s ins).2
  | .update id data =>
    match updateItem s id data with
    | none => s
    | some (_, s2) => s2
  | .deleteOne id => (deleteItem s id).getD s
  | .deleteAll => deleteAllItems s

/-- Replay a sequence of operations from a given store, collecting the ids handed out
by the creates, in order. -/
def replayTrace (s : MemStorage) : List StoreOp → MemStorage × List Int
  | [] => (s, [])
  | op :: rest =>
    let r := replayTrace (applyOp s op) rest
    match op with
    | .create _ => (r.1, s.currentId :: r.2)
    | _ => (r.1, r.2)

/-- The store reached by replaying a sequence of operations from a fresh process. -/
def replay (ops : List StoreOp) : MemStorage := (replayTrace MemStorage.init ops).1

/-- The ids allocated by the creates of a sequence, in allocation order. -/
def allocatedIds (ops : List StoreOp) : List Int := (replayTrace MemStorage.init ops).2

/-- The key sequence of the store's map, in insertion order. -/
def storeKeys (s : MemStorage) : List Int := s.items.map Prod.fst

/-! ## Category classifier (lib/categories.ts) -/

/-- The `categories` keyword table, in declaration order (`Object.entries` yields
string keys in insertion order). -/
def categories : List (String × List String) :=
  [("frukt", ["äpple", "banan", "apelsin", "päron", "vindruvor", "citron", "lime", "jordgubbar"]),
   ("grönsaker", ["morot", "potatis", "tomat", "lök", "sallad", "gurka", "broccoli"]),
   ("mejeri", ["mjölk", "ost", "yoghurt", "smör", "grädde", "ägg"]),
   ("kött", ["kyckling", "nötkött", "fläsk", "fisk", "lax", "räkor"]),
   ("skafferi", ["ris", "pasta", "bröd", "mjöl", "socker", "salt", "olja"]),
   ("snacks", ["chips", "kakor", "godis", "choklad", "nötter"]),
   ("dryck", ["vatten", "juice", "läsk", "kaffe", "te"]),
   ("hushåll", ["tvål", "papper", "tvättmedel", "soppåsar", "rengöring"]),
   ("övrigt", [])]

/-- `String.prototype.toLowerCase` restricted to the alphabet the keyword table can
meet: ASCII letters plus Å, Ä and Ö (every keyword is already lower case). -/
def jsToLowerChar (c : Char) : Char :=
  if 'A' ≤ c && c ≤ 'Z' then Char.ofNat (c.toNat + 32)
  else if c = 'Å' then 'å'
  else if c = 'Ä' then 'ä'
  else if c = 'Ö' then 'ö'
  else c

/-- Lower-case a whole name, as `name.toLowerCase()` does. -/
def jsToLower (s : String) : String := String.mk (s.toList.map jsToLowerChar)

/-- Does `sub` occur as a contiguous run inside the character list? -/
def charListIncludes (sub : List Char) : List Char → Bool
  | [] => sub.isEmpty
  | c :: t => sub.isPrefixOf (c :: t) || charListIncludes sub t

/-- `lowercaseName.includes(item)`: substring containment. -/
def stringIncludes (s sub : String) : Bool := charListIncludes sub.toList s.toList

/-- Does one category row match the (lower-cased) name, i.e. does
`items.some(item => lowercaseName.includes(item))` hold? -/
def catMatches (name : String) (row : String × List String) : Bool :=
  row.2.any (fun kw => stringIncludes (jsToLower name) kw)

/-- `categorizeItem` (lib/categories.ts): walk the rows in declaration order and
return the first whose keyword list has a member contained in the lower-cased name;
fall through to the string `övrigt`. -/
def categorizeItem (name : String) : String :=
  match categories.find? (catMatches name) with
  | some row => row.1
  | none => "övrigt"

/-- The merge the spec prescribes for `update(id, partialFields)`, written from the
spec's words: the prior item with exactly the supplied fields overwritten — a field
that is present (even `false` or the empty string) replaces the old value, an absent
field and the id keep their old values. Compared against `updateItem` below. -/
def mergeSpec (item : Item) (data : UpdateItemData) : Item :=
  { id := item.id,
    name := data.name.getD item.name,
    category := data.category.getD item.category,
    completed := data.completed.getD item.completed }

/-- The lifetime invariant of `MemStorage`: keys are strictly increasing in
insertion order, every key is a positive integer below the allocator, and every
stored item carries its own key as `id`. -/
structure StoreInv (s : MemStorage) : Prop where
  sorted : (storeKeys s).Pairwise (· < ·)
  ubound : ∀ k ∈ storeKeys s, k < s.currentId
  onePos : 1 ≤ s.currentId
  keyPos : ∀ k ∈ storeKeys s, 1 ≤ k
  keyId : ∀ p ∈ s.items, p.2.id = p.1

/-! ## Lemmas about the map model -/

theorem mapGet_eq_none_iff (m : ItemMap) (k : Int) :
    mapGet m k = none ↔ k ∉ m.map Prod.fst := by
  induction m with
  | nil => simp [mapGet]
  | cons p rest ih =>
    obtain ⟨k2, v⟩ := p
    by_cases h : k2 = k
    · subst h; simp [mapGet]
    · simp [mapGet, h, ih, Ne.symm h]

theorem mapGet_mem {m : ItemMap} {k : Int} {v : Item} (h : mapGet m k = some v) :
    (k, v) ∈ m := by
  induction m with
  | nil => simp [mapGet] at h
  | cons p rest ih =>
    obtain ⟨k2, v2⟩ := p
    by_cases hk : k2 = k
    · subst hk
      simp [mapGet] at h
      simp [h]
    · simp [mapGet, hk] at h
      exact List.mem_cons_of_mem _ (ih h)

theorem mapGet_mapSet_self (m : ItemMap) (k : Int) (v : Item) :
    mapGet (mapSet m k v) k = some v := by
  induction m with
  | nil => simp [mapSet, mapGet]
  | cons p rest ih =>
    obtain ⟨k2, v2⟩ := p
    by_cases h : k2 = k
    · subst h; simp [mapSet, mapGet]
    · simp [mapSet, mapGet, h, ih]

theorem mapGet_mapSet_ne (m : ItemMap) (k j : Int) (v : Item) (hj : j ≠ k) :
    mapGet (mapSet m k v) j = mapGet m j := by
  induction m with
  | nil => simp [mapSet, mapGet, Ne.symm hj]
  | cons p rest ih =>
    obtain ⟨k2, v2⟩ := p
    by_cases h : k2 = k
    · subst h
      simp [mapSet, mapGet, Ne.symm hj]
    · by_cases h2 : k2 = j
      · simp [mapSet, mapGet, h, h2, hj]
      · simp [mapSet, mapGet, h, h2, ih]

theorem mapSet_map_fst_of_mem {m : ItemMap} {k : Int} (v : Item)
    (h : k ∈ m.map Prod.fst) : (mapSet m k v).map Prod.fst = m.map Prod.fst := by
  induction m with
  | nil => simp at h
  | cons p rest ih =>
    obtain ⟨k2, v2⟩ := p
    by_cases hk : k2 = k
    · subst hk; simp [mapSet]
    · have h3 : k ∈ k2 :: rest.map Prod.fst := by simpa using h
      rcases List.mem_cons.mp h3 with h2 | h2
      · exact absurd h2.symm hk
      · simp [mapSet, hk, ih h2]

theorem mapSet_map_fst_of_not_mem {m : ItemMap} {k : Int} (v : Item)
    (h : k ∉ m.map Prod.fst) : (mapSet m k v).map Prod.fst = m.map Prod.fst ++ [k] := by
  induction m with
  | nil => simp [mapSet]
  | cons p rest ih =>
    obtain ⟨k2, v2⟩ := p
    have h1 : k2 ≠ k := fun he => h (by simp [he])
    have h2 : k ∉ rest.map Prod.fst := fun hm => h (by simp [hm])
    simp [mapSet, h1, ih h2]

theorem mem_mapSet {m : ItemMap} {k : Int} {v : Item} {p : Int × Item}
    (h : p ∈ mapSet m k v) : p = (k, v) ∨ p ∈ m := by
  induction m with
  | nil => simp [mapSet] at h; simp [h]
  | cons q rest ih =>
    obtain ⟨k2, v2⟩ := q
    by_cases hk : k2 = k
    · subst hk
      simp [mapSet] at h
      rcases h with h | h
      · exact Or.inl h
      · exact Or.inr (List.mem_cons_of_mem _ h)
    · simp [mapSet, hk] at h
      rcases h with h | h
      · exact Or.inr (by simp [h])
      · rcases ih h with h2 | h2
        · exact Or.inl h2
        · exact Or.inr (List.mem_cons_of_mem _ h2)

theorem mapDelete_sublist (m : ItemMap) (k : Int) : List.Sublist (mapDelete m k) m := by
  induction m with
  | nil => simp [mapDelete]
  | cons p rest ih =>
    obtain ⟨k2, v2⟩ := p
    by_cases hk : k2 = k
    · subst hk
      simp only [mapDelete, if_pos rfl]
      exact List.sublist_cons_self (k2, v2) rest
    · simpa [mapDelete, hk] using ih.cons₂ (k2, v2)

/-! ## Lemmas about the broadcast loop -/

theorem broadcastLoop_sends_msg (msg : String) (cs : List Client) :
    ∀ p ∈ (broadcastLoop msg cs).2, p.2 = msg := by
  induction cs with
  | nil => simp [broadcastLoop]
  | cons c rest ih =>
    intro p hp
    simp only [broadcastLoop] at hp
    by_cases h1 : c.readyState = ReadyState.OPEN
    · by_cases h2 : c.sendFails
      · simp [h1, h2] at hp
        exact ih p hp
      · simp [h1, h2] at hp
        rcases hp with hp | hp
        · simp [hp]
        · exact ih p hp
    · simp [h1] at hp
      exact ih p hp

theorem broadcastLoop_delivers (msg : String) (cs : List Client) (c : Client)
    (hc : c ∈ cs) (hopen : c.readyState = ReadyState.OPEN) (hok : c.sendFails = false) :
    (c.label, msg) ∈ (broadcastLoop msg cs).2 := by
  induction cs with
  | nil => simp at hc
  | cons d rest ih =>
    simp only [broadcastLoop]
    rcases List.mem_cons.mp hc with hc1 | hc1
    · subst hc1
      simp [hopen, hok]
    · by_cases h1 : d.readyState = ReadyState.OPEN
      · by_cases h2 : d.sendFails
        · simpa [h1, h2] using ih hc1
        · simpa [h1, h2] using Or.inr (ih hc1)
      · simpa [h1] using ih hc1

theorem broadcastLoop_sends_from_open (msg : String) (cs : List Client) :
    ∀ p ∈ (broadcastLoop msg cs).2,
      ∃ c, c ∈ cs ∧ c.readyState = ReadyState.OPEN ∧ c.sendFails = false ∧ p.1 = c.label := by
  induction cs with
  | nil => simp [broadcastLoop]
  | cons d rest ih =>
    intro p hp
    simp only [broadcastLoop] at hp
    by_cases h1 : d.readyState = ReadyState.OPEN
    · by_cases h2 : d.sendFails
      · obtain ⟨c, hc, h⟩ := ih p (by simpa [h1, h2] using hp)
        exact ⟨c, List.mem_cons_of_mem _ hc, h⟩
      · simp [h1, h2] at hp
        rcases hp with hp | hp
        · exact ⟨d, List.mem_cons_self d rest, h1, by simp [h2], by simp [hp]⟩
        · obtain ⟨c, hc, h⟩ := ih p hp
          exact ⟨c, List.mem_cons_of_mem _ hc, h⟩
    · obtain ⟨c, hc, h⟩ := ih p (by simpa [h1] using hp)
      exact ⟨c, List.mem_cons_of_mem _ hc, h⟩

theorem broadcastLoop_keeps_nonopen (msg : String) (cs : List Client) (c : Client)
    (hc : c ∈ cs) (h : c.readyState ≠ ReadyState.OPEN) :
    c ∈ (broadcastLoop msg cs).1 := by
  induction cs with
  | nil => simp at hc
  | cons d rest ih =>
    simp only [broadcastLoop]
    rcases List.mem_cons.mp hc with hc1 | hc1
    · subst hc1
      simp [h]
    · by_cases h1 : d.readyState = ReadyState.OPEN
      · by_cases h2 : d.sendFails
        · simpa [h1, h2] using ih hc1
        · simpa [h1, h2] using Or.inr (ih hc1)
      · simpa [h1] using Or.inr (ih hc1)

/-! ## The store invariant holds through every lifetime -/

theorem storeInv_init : StoreInv MemStorage.init := by
  constructor <;> simp [MemStorage.init, storeKeys]

theorem inv_createItem {s : MemStorage} (h : StoreInv s) (ins : InsertItem) :
    StoreInv (createItem s ins).2 ∧ (createItem s ins).2.currentId = s.currentId + 1 := by
  have hfresh : s.currentId ∉ s.items.map Prod.fst :=
    fun hm => absurd (h.ubound _ hm) (lt_irrefl _)
  have hkeys : storeKeys (createItem s ins).2 = storeKeys s ++ [s.currentId] := by
    simpa [createItem, storeKeys] using mapSet_map_fst_of_not_mem _ hfresh
  have hcur : (createItem s ins).2.currentId = s.currentId + 1 := rfl
  refine ⟨⟨?_, ?_, ?_, ?_, ?_⟩, hcur⟩
  · rw [hkeys]
    refine List.pairwise_append.mpr ⟨h.sorted, by simp, ?_⟩
    intro a ha b hb
    have hb2 : b = s.currentId := by simpa using hb
    subst hb2
    exact h.ubound a ha
  · intro k hk
    rw [hkeys] at hk
    rw [hcur]
    rcases List.mem_append.mp hk with hk2 | hk2
    · have := h.ubound k hk2; omega
    · have : k = s.currentId := by simpa using hk2
      omega
  · rw [hcur]; have := h.onePos; omega
  · intro k hk
    rw [hkeys] at hk
    rcases List.mem_append.mp hk with hk2 | hk2
    · exact h.keyPos k hk2
    · have : k = s.currentId := by simpa using hk2
      subst this
      exact h.onePos
  · intro p hp
    have hp2 : p ∈ mapSet s.items s.currentId _ := hp
    rcases mem_mapSet hp2 with hp3 | hp3
    · subst hp3; rfl
    · exact h.keyId p hp3

theorem storeKeys_set_mem (s : MemStorage) (k : Int) (v : Item) (cid : Int)
    (h : k ∈ s.items.map Prod.fst) :
    storeKeys (MemStorage.mk (mapSet s.items k v) cid) = storeKeys s := by
  simpa [storeKeys] using mapSet_map_fst_of_mem v h

theorem inv_updateItem {s s2 : MemStorage} {id : Int} {data : UpdateItemData} {it : Item}
    (h : StoreInv s) (hu : updateItem s id data = some (it, s2)) :
    StoreInv s2 ∧ s2.currentId = s.currentId ∧ storeKeys s2 = storeKeys s := by
  unfold updateItem at hu
  cases hg : mapGet s.items id with
  | none => rw [hg] at hu; exact absurd hu (by simp)
  | some item =>
    rw [hg] at hu
    simp only [Option.some.injEq, Prod.mk.injEq] at hu
    obtain ⟨hit, hs2⟩ := hu
    subst hs2
    subst hit
    have hmem : id ∈ s.items.map Prod.fst := by
      by_contra hm
      rw [(mapGet_eq_none_iff s.items id).mpr hm] at hg
      exact absurd hg (by simp)
    have hitem_id : item.id = id := h.keyId (id, item) (mapGet_mem hg)
    refine ⟨⟨?_, ?_, ?_, ?_, ?_⟩, rfl, storeKeys_set_mem s id _ s.currentId hmem⟩
    · rw [storeKeys_set_mem s id _ s.currentId hmem]; exact h.sorted
    · intro k hk
      rw [storeKeys_set_mem s id _ s.currentId hmem] at hk
      exact h.ubound k hk
    · exact h.onePos
    · intro k hk
      rw [storeKeys_set_mem s id _ s.currentId hmem] at hk
      exact h.keyPos k hk
    · intro p hp
      rcases mem_mapSet hp with hp2 | hp2
      · subst hp2; exact hitem_id
      · exact h.keyId p hp2

theorem inv_deleteItem {s s2 : MemStorage} {id : Int}
    (h : StoreInv s) (hd : deleteItem s id = some s2) :
    StoreInv s2 ∧ s2.currentId = s.currentId := by
  unfold deleteItem at hd
  cases hg : mapGet s.items id with
  | none => rw [hg] at hd; exact absurd hd (by simp)
  | some item =>
    rw [hg] at hd
    have hs2 : s2 = { s with items := mapDelete s.items id } := (Option.some.inj hd).symm
    have hsub : List.Sublist (storeKeys s2) (storeKeys s) := by
      rw [hs2]; exact (mapDelete_sublist s.items id).map Prod.fst
    have hcur : s2.currentId = s.currentId := by rw [hs2]
    refine ⟨⟨?_, ?_, ?_, ?_, ?_⟩, hcur⟩
    · exact h.sorted.sublist hsub
    · intro k hk; rw [hcur]; exact h.ubound k (hsub.mem hk)
    · rw [hcur]; exact h.onePos
    · intro k hk; exact h.keyPos k (hsub.mem hk)
    · intro p hp
      rw [hs2] at hp
      exact h.keyId p ((mapDelete_sublist s.items id).mem hp)

theorem inv_deleteAll {s : MemStorage} (h : StoreInv s) :
    StoreInv (deleteAllItems s) ∧ (deleteAllItems s).currentId = s.currentId := by
  refine ⟨⟨?_, ?_, ?_, ?_, ?_⟩, rfl⟩ <;>
    simp [deleteAllItems, storeKeys]
  exact h.onePos

theorem inv_applyOp {s : MemStorage} (h : StoreInv s) (op : StoreOp) :
    StoreInv (applyOp s op) ∧ s.currentId ≤ (applyOp s op).currentId := by
  cases op with
  | create ins =>
    obtain ⟨h1, h2⟩ := inv_createItem h ins
    exact ⟨h1, by simp [applyOp]; omega⟩
  | update id data =>
    cases hu : updateItem s id data with
    | none => simp only [applyOp, hu]; exact ⟨h, le_refl _⟩
    | some r =>
      obtain ⟨h1, h2, _⟩ := inv_updateItem h (show updateItem s id data = some (r.1, r.2) from hu)
      simp only [applyOp, hu]
      exact ⟨h1, le_of_eq h2.symm⟩
  | deleteOne id =>
    cases hd : deleteItem s id with
    | none => simp only [applyOp, hd, Option.getD]; exact ⟨h, le_refl _⟩
    | some s2 =>
      obtain ⟨h1, h2⟩ := inv_deleteItem h hd
      simp only [applyOp, hd, Option.getD]
      exact ⟨h1, le_of_eq h2.symm⟩
  | deleteAll =>
    obtain ⟨h1, h2⟩ := inv_deleteAll h
    exact ⟨h1, le_of_eq h2.symm⟩

theorem replayTrace_spec (ops : List StoreOp) : ∀ s : MemStorage, StoreInv s →
    StoreInv (replayTrace s ops).1 ∧
    s.currentId ≤ (replayTrace s ops).1.currentId ∧
    (∀ i ∈ (replayTrace s ops).2, s.currentId ≤ i) ∧
    (replayTrace s ops).2.Pairwise (· < ·) := by
  induction ops with
  | nil =>
    intro s h
    exact ⟨h, le_refl _, by simp [replayTrace], by simp [replayTrace]⟩
  | cons op rest ih =>
    intro s h
    obtain ⟨hop, hople⟩ := inv_applyOp h op
    obtain ⟨h1, h2, h3, h4⟩ := ih (applyOp s op) hop
    cases op with
    | create ins =>
      have hcur : (applyOp s (StoreOp.create ins)).currentId = s.currentId + 1 := rfl
      refine ⟨h1, ?_, ?_, ?_⟩
      · show s.currentId ≤ (replayTrace (applyOp s (StoreOp.create ins)) rest).1.currentId
        have := h2; rw [hcur] at this; omega
      · show ∀ i ∈ s.currentId :: (replayTrace (applyOp s (StoreOp.create ins)) rest).2,
          s.currentId ≤ i
        intro i hi
        rcases List.mem_cons.mp hi with hi2 | hi2
        · omega
        · have := h3 i hi2; rw [hcur] at this; omega
      · show List.Pairwise (· < ·)
          (s.currentId :: (replayTrace (applyOp s (StoreOp.create ins)) rest).2)
        refine List.pairwise_cons.mpr ⟨?_, h4⟩
        intro y hy
        have := h3 y hy; rw [hcur] at this; omega
    | update id data =>
      exact ⟨h1, le_trans hople h2, fun i hi => le_trans hople (h3 i hi), h4⟩
    | deleteOne id =>
      exact ⟨h1, le_trans hople h2, fun i hi => le_trans hople (h3 i hi), h4⟩
    | deleteAll =>
      exact ⟨h1, le_trans hople h2, fun i hi => le_trans hople (h3 i hi), h4⟩

theorem storeInv_replay (ops : List StoreOp) : StoreInv (replay ops) :=
  (replayTrace_spec ops MemStorage.init storeInv_init).1

theorem getItems_map_id {s : MemStorage} (h : StoreInv s) :
    (getItems s).map Item.id = storeKeys s := by
  unfold getItems storeKeys
  rw [List.map_map]
  exact List.map_congr_left (fun p hp => h.keyId p hp)

theorem applyOp_update_keys (s : MemStorage) (id : Int) (data : UpdateItemData) :
    storeKeys (applyOp s (StoreOp.update id data)) = storeKeys s := by
  cases hu : updateItem s id data with
  | none => simp [applyOp, hu]
  | some r =>
    obtain ⟨it, s2⟩ := r
    simp only [applyOp, hu]
    unfold updateItem at hu
    cases hg : mapGet s.items id with
    | none => rw [hg] at hu; exact absurd hu (by simp)
    | some item =>
      rw [hg] at hu
      simp only [Option.some.injEq, Prod.mk.injEq] at hu
      obtain ⟨hit, hs2⟩ := hu
      subst hs2
      have hmem : id ∈ s.items.map Prod.fst := by
        by_contra hm
        rw [(mapGet_eq_none_iff s.items id).mpr hm] at hg
        exact absurd hg (by simp)
      exact storeKeys_set_mem s id _ s.currentId hmem

/-! ## Claim theorems -/

/-- C3: within one process lifetime, each create returns an id strictly greater than
every id allocated before it, no id — a deleted one included — is ever allocated
twice, and all ids present in the Store are unique. -/
theorem create_ids_strictly_increasing (ops : List StoreOp) :
    (allocatedIds ops).Pairwise (· < ·) ∧ (allocatedIds ops).Nodup ∧
    (storeKeys (replay ops)).Nodup := by
  obtain ⟨hinv, _, _, hpw⟩ := replayTrace_spec ops MemStorage.init storeInv_init
  exact ⟨hpw, hpw.imp (fun hab => ne_of_lt hab), hinv.sorted.imp (fun hab => ne_of_lt hab)⟩

/-- C8: `list()` is total, returns the items in insertion order — which coincides
with strictly ascending id order — returns the empty sequence on the empty store,
and an update never changes the key order. -/
theorem getItems_insertion_order (ops : List StoreOp) :
    ((getItems (replay ops)).map Item.id).Pairwise (· < ·) ∧
    getItems MemStorage.init = [] ∧
    (getItems (replay ops) = [] ↔ (replay ops).items = []) ∧
    ∀ id data, storeKeys (applyOp (replay ops) (StoreOp.update id data))
      = storeKeys (replay ops) := by
  have hinv := storeInv_replay ops
  refine ⟨?_, rfl, ?_, fun id data => applyOp_update_keys _ id data⟩
  · rw [getItems_map_id hinv]; exact hinv.sorted
  · simp [getItems, List.map_eq_nil_iff]

/-- C4: when the id is present, `updateItem` returns and stores exactly the
spec-prescribed merge of the prior item with the supplied partial fields — present
fields (falsey values included) overwrite, absent fields and the id are untouched,
every other entry of the map is untouched, the allocator is untouched, and the
merge with the empty partial object is the identity. -/
theorem updateItem_merges (s : MemStorage) (id : Int) (data : UpdateItemData)
    (item : Item) (h : mapGet s.items id = some item) :
    updateItem s id data
      = some (mergeSpec item data,
          { s with items := mapSet s.items id (mergeSpec item data) }) ∧
    mapGet (mapSet s.items id (mergeSpec item data)) id = some (mergeSpec item data) ∧
    (∀ j, j ≠ id → mapGet (mapSet s.items id (mergeSpec item data)) j = mapGet s.items j) ∧
    mergeSpec item { completed := none, category := none, name := none } = item := by
  refine ⟨?_, mapGet_mapSet_self _ _ _, fun j hj => mapGet_mapSet_ne _ _ _ _ hj, rfl⟩
  unfold updateItem
  rw [h]
  rfl

/-- C5: an update or delete-one whose id is not in the Store answers 404
`Item not found`, leaves the whole server state exactly as it was, runs no
broadcast and performs no sends. -/
theorem notFound_no_mutation (st : ServerState) (idSeg : String) (body : JsVal)
    (id : Int) (data : UpdateItemData)
    (hid : parseIntJS idSeg = some id)
    (hbody : safeParseUpdate body = some data)
    (hmiss : mapGet st.storage.items id = none) :
    patchItemRoute idSeg body st
      = { resp := .notFound "Item not found", state := st, broadcasts := 0, sends := [] } ∧
    deleteItemRoute idSeg st
      = { resp := .notFound "Item not found", state := st, broadcasts := 0, sends := [] } := by
  have hupd : updateItem st.storage id data = none := by
    unfold updateItem; rw [hmiss]
  have hdel : deleteItem st.storage id = none := by
    unfold deleteItem; rw [hmiss]
  constructor
  · simp [patchItemRoute, hid, hbody, hupd]
  · simp [deleteItemRoute, hid, hdel]

/-- Witness for the C4 theorem at a concrete store and a partial object holding the
falsey values `false` and the empty string: both overwrite, the omitted `category`
and the id survive. -/
theorem updateItem_merges_witness :
    updateItem ⟨[(1, ⟨1, "milk", "dairy", true⟩)], 2⟩ 1 ⟨some false, none, some ""⟩
      = some (mergeSpec ⟨1, "milk", "dairy", true⟩ ⟨some false, none, some ""⟩,
          ⟨mapSet [(1, ⟨1, "milk", "dairy", true⟩)] 1
            (mergeSpec ⟨1, "milk", "dairy", true⟩ ⟨some false, none, some ""⟩), 2⟩) ∧
    mergeSpec ⟨1, "milk", "dairy", true⟩ ⟨some false, none, some ""⟩ = ⟨1, "", "dairy", false⟩ :=
  ⟨(updateItem_merges ⟨[(1, ⟨1, "milk", "dairy", true⟩)], 2⟩ 1 ⟨some false, none, some ""⟩
      ⟨1, "milk", "dairy", true⟩ rfl).1, rfl⟩

/-- Witness for the C5 theorem: a PATCH and a DELETE of id 5 against the empty
store answer 404 and change nothing. -/
theorem notFound_no_mutation_witness :
    patchItemRoute "5" (.jsObj []) ⟨MemStorage.init, []⟩
      = { resp := .notFound "Item not found", state := ⟨MemStorage.init, []⟩,
          broadcasts := 0, sends := [] } ∧
    deleteItemRoute "5" ⟨MemStorage.init, []⟩
      = { resp := .notFound "Item not found", state := ⟨MemStorage.init, []⟩,
          broadcasts := 0, sends := [] } :=
  notFound_no_mutation ⟨MemStorage.init, []⟩ "5" (.jsObj []) 5 ⟨none, none, none⟩ rfl rfl rfl

/-- C1 counterexample: a tracked connection that is still CONNECTING does not receive
the broadcast message, so the message is not pushed to every currently-tracked
connection. -/
theorem broadcast_not_every_tracked_counterexample :
    (⟨0, .CONNECTING, false⟩ : Client) ∈
      (⟨MemStorage.init, [⟨0, .CONNECTING, false⟩]⟩ : ServerState).clients ∧
    (broadcastUpdate ⟨MemStorage.init, [⟨0, .CONNECTING, false⟩]⟩).2 = [] :=
  ⟨by decide, rfl⟩

/-- C1 (amended): every broadcast reads the Store once and serializes the snapshot
into one message of shape type UPDATE/items; every performed send carries that
identical string; every tracked connection that is Open and whose send does not
throw receives it, regardless of send failures on other connections; the broadcast
never touches the storage; and each mutation route's response is independent of the
tracked connections, so no push failure reaches the mutation's caller. -/
theorem broadcast_single_snapshot :
    (∀ st : ServerState, ∀ p ∈ (broadcastUpdate st).2,
      p.2 = renderJsVal (updateMessage (getItems st.storage))) ∧
    (∀ (st : ServerState), ∀ c ∈ st.clients,
      c.readyState = ReadyState.OPEN → c.sendFails = false →
      (c.label, renderJsVal (updateMessage (getItems st.storage))) ∈ (broadcastUpdate st).2) ∧
    (∀ st : ServerState, (broadcastUpdate st).1.storage = st.storage) ∧
    (∀ (stor : MemStorage) (cl cl2 : List Client) (body : JsVal) (idSeg : String),
      (postItemsRoute body ⟨stor, cl⟩).resp = (postItemsRoute body ⟨stor, cl2⟩).resp ∧
      (patchItemRoute idSeg body ⟨stor, cl⟩).resp = (patchItemRoute idSeg body ⟨stor, cl2⟩).resp ∧
      (deleteItemRoute idSeg ⟨stor, cl⟩).resp = (deleteItemRoute idSeg ⟨stor, cl2⟩).resp ∧
      (deleteAllRoute ⟨stor, cl⟩).resp = (deleteAllRoute ⟨stor, cl2⟩).resp) := by
  refine ⟨fun st p hp => broadcastLoop_sends_msg _ _ p hp,
    fun st c hc h1 h2 => broadcastLoop_delivers _ _ c hc h1 h2,
    fun st => rfl, ?_⟩
  intro stor cl cl2 body idSeg
  refine ⟨?_, ?_, ?_, rfl⟩
  · cases h : safeParseInsert body <;> simp [postItemsRoute, h]
  · cases h1 : parseIntJS idSeg with
    | none => simp [patchItemRoute, h1]
    | some id =>
      cases h2 : safeParseUpdate body with
      | none => simp [patchItemRoute, h1, h2]
      | some data =>
        cases h3 : updateItem stor id data with
        | none => simp [patchItemRoute, h1, h2, h3]
        | some r => simp [patchItemRoute, h1, h2, h3]
  · cases h1 : parseIntJS idSeg with
    | none => simp [deleteItemRoute, h1]
    | some id =>
      cases h2 : deleteItem stor id with
      | none => simp [deleteItemRoute, h1, h2]
      | some s2 => simp [deleteItemRoute, h1, h2]

/-- Witness for the amended C1 theorem: with one healthy Open connection and one
Open connection whose send throws, the healthy one still receives the snapshot
message. -/
theorem broadcast_single_snapshot_witness :
    ((0 : Nat), renderJsVal (updateMessage (getItems MemStorage.init))) ∈
      (broadcastUpdate ⟨MemStorage.init, [⟨0, .OPEN, false⟩, ⟨1, .OPEN, true⟩]⟩).2 :=
  broadcast_single_snapshot.2.1 ⟨MemStorage.init, [⟨0, .OPEN, false⟩, ⟨1, .OPEN, true⟩]⟩
    ⟨0, .OPEN, false⟩ (by decide) rfl rfl

/-- C9: during a broadcast the message is sent only to tracked connections whose
state is Open (and whose send does not throw); a tracked connection in any other
state is skipped without error and stays in the tracked set. -/
theorem broadcast_skips_non_open (st : ServerState) :
    (∀ p ∈ (broadcastUpdate st).2,
      ∃ c, c ∈ st.clients ∧ c.readyState = ReadyState.OPEN ∧
        c.sendFails = false ∧ p.1 = c.label) ∧
    (∀ c ∈ st.clients, c.readyState ≠ ReadyState.OPEN →
      c ∈ (broadcastUpdate st).1.clients) :=
  ⟨fun p hp => broadcastLoop_sends_from_open _ _ p hp,
   fun c hc h => broadcastLoop_keeps_nonopen _ _ c hc h⟩

/-- Witness for the C9 theorem: a CLOSING connection in a set with an Open peer is
still tracked after the broadcast. -/
theorem broadcast_skips_non_open_witness :
    (⟨7, .CLOSING, false⟩ : Client) ∈
      (broadcastUpdate ⟨MemStorage.init, [⟨7, .CLOSING, false⟩, ⟨8, .OPEN, false⟩]⟩).1.clients :=
  (broadcast_skips_non_open ⟨MemStorage.init, [⟨7, .CLOSING, false⟩, ⟨8, .OPEN, false⟩]⟩).2
    ⟨7, .CLOSING, false⟩ (by decide) (by decide)

/-- C6 counterexample: the id segment `-1` is not rejected with 400; it passes
`parseInt` and both routes answer 404 from the Store lookup. -/
theorem negative_id_counterexample :
    isBadRequest (patchItemRoute "-1" (.jsObj []) ⟨MemStorage.init, []⟩).resp = false ∧
    (patchItemRoute "-1" (.jsObj []) ⟨MemStorage.init, []⟩).resp = .notFound "Item not found" ∧
    isBadRequest (deleteItemRoute "-1" ⟨MemStorage.init, []⟩).resp = false ∧
    (deleteItemRoute "-1" ⟨MemStorage.init, []⟩).resp = .notFound "Item not found" :=
  ⟨rfl, rfl, rfl, rfl⟩

/-- C6 (amended): PATCH and DELETE reject with 400 before consulting the Store
exactly when `parseInt` yields NaN on the id segment; a negative segment parses
successfully, is looked up, and yields 404, because every reachable store holds
only ids that are at least 1. -/
theorem id_gate_parseInt :
    (∀ (idSeg : String) (body : JsVal) (st : ServerState), parseIntJS idSeg = none →
      patchItemRoute idSeg body st
        = { resp := .badRequest "Invalid ID", state := st, broadcasts := 0, sends := [] } ∧
      deleteItemRoute idSeg st
        = { resp := .badRequest "Invalid ID", state := st, broadcasts := 0, sends := [] }) ∧
    (∀ (ops : List StoreOp) (clients : List Client) (idSeg : String) (body : JsVal)
        (data : UpdateItemData) (id : Int),
      parseIntJS idSeg = some id → id < 1 → safeParseUpdate body = some data →
      (patchItemRoute idSeg body ⟨replay ops, clients⟩).resp = .notFound "Item not found" ∧
      (deleteItemRoute idSeg ⟨replay ops, clients⟩).resp = .notFound "Item not found") := by
  constructor
  · intro idSeg body st h
    constructor
    · simp [patchItemRoute, h]
    · simp [deleteItemRoute, h]
  · intro ops clients idSeg body data id hid hneg hbody
    have hinv := storeInv_replay ops
    have hmiss : mapGet (replay ops).items id = none := by
      rw [mapGet_eq_none_iff]
      intro hmem
      have := hinv.keyPos id hmem
      omega
    have hupd : updateItem (replay ops) id data = none := by
      unfold updateItem; rw [hmiss]
    have hdel : deleteItem (replay ops) id = none := by
      unfold deleteItem; rw [hmiss]
    constructor
    · simp [patchItemRoute, hid, hbody, hupd]
    · simp [deleteItemRoute, hid, hdel]

/-- Witness for the amended C6 theorem: a non-numeric segment is rejected with 400,
and the negative segment `-1` on a fresh store answers 404. -/
theorem id_gate_parseInt_witness :
    patchItemRoute "abc" (.jsObj []) ⟨MemStorage.init, []⟩
      = { resp := .badRequest "Invalid ID", state := ⟨MemStorage.init, []⟩,
          broadcasts := 0, sends := [] } ∧
    (patchItemRoute "-1" (.jsObj []) ⟨MemStorage.init, []⟩).resp = .notFound "Item not found" :=
  ⟨(id_gate_parseInt.1 "abc" (.jsObj []) ⟨MemStorage.init, []⟩ rfl).1,
   (id_gate_parseInt.2 [] [] "-1" (.jsObj []) ⟨none, none, none⟩ (-1)
      (by decide) (by decide) rfl).1⟩

/-- A body that `insertBodyLacksText` flags fails `insertItemSchema`. -/
theorem lacksText_parse_none (body : JsVal) (h : insertBodyLacksText body = true) :
    safeParseInsert body = none := by
  cases body with
  | jsNull => rfl
  | jsBool b => rfl
  | jsNum n => rfl
  | jsStr s => rfl
  | jsArr elems => rfl
  | jsObj fields =>
    simp only [safeParseInsert]
    split
    · rename_i n c hn hc
      simp [insertBodyLacksText, hn, hc] at h
    · rfl

/-- C7 counterexample: the body with `name` the empty string and a valid `category`
is not rejected — it is accepted with 200, the item is stored and a broadcast runs. -/
theorem empty_name_accepted_counterexample :
    (postItemsRoute (.jsObj [("name", .jsStr ""), ("category", .jsStr "x")])
        ⟨MemStorage.init, []⟩).resp = .ok (itemToJsVal ⟨1, "", "x", false⟩) ∧
    isBadRequest (postItemsRoute (.jsObj [("name", .jsStr ""), ("category", .jsStr "x")])
        ⟨MemStorage.init, []⟩).resp = false ∧
    (postItemsRoute (.jsObj [("name", .jsStr ""), ("category", .jsStr "x")])
        ⟨MemStorage.init, []⟩).state.storage.items = [(1, ⟨1, "", "x", false⟩)] ∧
    (postItemsRoute (.jsObj [("name", .jsStr ""), ("category", .jsStr "x")])
        ⟨MemStorage.init, []⟩).broadcasts = 1 :=
  ⟨rfl, rfl, rfl, rfl⟩

/-- C7 (amended): a POST body that is not an object, or misses `name` or `category`,
or supplies either with a non-text type, is rejected with 400 without touching the
Store and without broadcast; a `name` that is the empty string is accepted, not
rejected. -/
theorem create_validation :
    (∀ (body : JsVal) (st : ServerState), insertBodyLacksText body = true →
      postItemsRoute body st
        = { resp := .badRequest "Invalid item data", state := st,
            broadcasts := 0, sends := [] }) ∧
    (∀ (st : ServerState) (cat : String),
      (postItemsRoute (.jsObj [("name", .jsStr ""), ("category", .jsStr cat)]) st).resp
        = .ok (itemToJsVal ⟨st.storage.currentId, "", cat, false⟩)) := by
  constructor
  · intro body st h
    simp [postItemsRoute, lacksText_parse_none body h]
  · intro st cat
    rfl

/-- Witness for the amended C7 theorem: a numeric `name` is rejected with 400 and
an empty-string `name` is accepted with the created item echoed back. -/
theorem create_validation_witness :
    postItemsRoute (.jsObj [("name", .jsNum 5), ("category", .jsStr "x")]) ⟨MemStorage.init, []⟩
      = { resp := .badRequest "Invalid item data", state := ⟨MemStorage.init, []⟩,
          broadcasts := 0, sends := [] } ∧
    (postItemsRoute (.jsObj [("name", .jsStr ""), ("category", .jsStr "frukt")])
        ⟨MemStorage.init, []⟩).resp = .ok (itemToJsVal ⟨1, "", "frukt", false⟩) :=
  ⟨create_validation.1 (.jsObj [("name", .jsNum 5), ("category", .jsStr "x")])
      ⟨MemStorage.init, []⟩ rfl,
   create_validation.2 ⟨MemStorage.init, []⟩ "frukt"⟩

/-- C10: `categorizeItem` is total — it always lands in the nine declared keys,
which appear in declaration order; it returns the first declared category with a
keyword occurring case-insensitively in the name, and `övrigt` when no keyword of
any category matches; its result always matches unless it is the fallback. -/
theorem categorizeItem_first_declared (name : String) :
    categorizeItem name ∈ categories.map Prod.fst ∧
    categories.map Prod.fst
      = ["frukt", "grönsaker", "mejeri", "kött", "skafferi",
         "snacks", "dryck", "hushåll", "övrigt"] ∧
    ((∀ row ∈ categories, catMatches name row = false) → categorizeItem name = "övrigt") ∧
    (∀ pre row post, categories = pre ++ row :: post → catMatches name row = true →
      (∀ q ∈ pre, catMatches name q = false) → categorizeItem name = row.1) ∧
    (categorizeItem name = "övrigt" ∨
      ∃ row ∈ categories, row.1 = categorizeItem name ∧ catMatches name row = true) := by
  refine ⟨?_, rfl, ?_, ?_, ?_⟩
  · unfold categorizeItem
    cases hf : categories.find? (catMatches name) with
    | none => decide
    | some row =>
      exact List.mem_map_of_mem Prod.fst (List.mem_of_find?_eq_some hf)
  · intro hall
    unfold categorizeItem
    rw [List.find?_eq_none.mpr (fun x hx => by simp [hall x hx])]
  · intro pre row post hcat hrow hpre
    unfold categorizeItem
    rw [hcat, List.find?_append,
      List.find?_eq_none.mpr (fun x hx => by simp [hpre x hx]),
      List.find?_cons_of_pos _ hrow]
    rfl
  · unfold categorizeItem
    cases hf : categories.find? (catMatches name) with
    | none => exact Or.inl rfl
    | some row =>
      exact Or.inr ⟨row, List.mem_of_find?_eq_some hf, rfl, List.find?_some hf⟩

/-- Witness for the C10 theorem: a name that matches the keyword lists of both the
first category (lime) and a later one (läsk) is assigned the first in declaration
order, and a name matching nothing falls back to övrigt. -/
theorem categorizeItem_witness :
    categorizeItem "Lime Läsk" = "frukt" ∧ categorizeItem "zzz" = "övrigt" :=
  ⟨(categorizeItem_first_declared "Lime Läsk").2.2.2.1 []
      ("frukt", ["äpple", "banan", "apelsin", "päron", "vindruvor", "citron", "lime", "jordgubbar"])
      _ rfl (by decide) (by decide),
   (categorizeItem_first_declared "zzz").2.2.1 (by decide)⟩

/-- C2: each of the four mutation routes runs `broadcastUpdate` exactly once when it
answers successfully and not at all when it fails id-parsing, body validation or the
Store lookup; delete-all always succeeds and always broadcasts once. -/
theorem broadcast_exactly_on_success (st : ServerState) (body : JsVal) (idSeg : String) :
    (postItemsRoute body st).broadcasts
      = (if isSuccess (postItemsRoute body st).resp then 1 else 0) ∧
    (patchItemRoute idSeg body st).broadcasts
      = (if isSuccess (patchItemRoute idSeg body st).resp then 1 else 0) ∧
    (deleteItemRoute idSeg st).broadcasts
      = (if isSuccess (deleteItemRoute idSeg st).resp then 1 else 0) ∧
    (deleteAllRoute st).broadcasts = 1 ∧
    isSuccess (deleteAllRoute st).resp = true := by
  refine ⟨?_, ?_, ?_, rfl, rfl⟩
  · cases h : safeParseInsert body <;> simp [postItemsRoute, h, isSuccess]
  · cases h1 : parseIntJS idSeg with
    | none => simp [patchItemRoute, h1, isSuccess]
    | some id =>
      cases h2 : safeParseUpdate body with
      | none => simp [patchItemRoute, h1, h2, isSuccess]
      | some data =>
        cases h3 : updateItem st.storage id data with
        | none => simp [patchItemRoute, h1, h2, h3, isSuccess]
        | some r => simp [patchItemRoute, h1, h2, h3, isSuccess]
  · cases h1 : parseIntJS idSeg with
    | none => simp [deleteItemRoute, h1, isSuccess]
    | some id =>
      cases h2 : deleteItem st.storage id with
      | none => simp [deleteItemRoute, h1, h2, isSuccess]
      | some s2 => simp [deleteItemRoute, h1, h2, isSuccess]

end SL
